import Mathlib

/-!
# Verification of the tiler toolkit (tile sampling / compositing / animation engine)

Shallow embedding of the core functions of `tiler_toolkit.py` and
`legacy/tiler-test-05.py`:

* rasters are modelled as a size plus a total pixel function (`Raster`);
  pixel values are abstract RGBA integer quadruples (`Pix`);
* the pseudo-random generator is modelled as an explicit stream of raw
  natural-number draws (`Rng`); `randint`, `uniform` and `shuffle` consume
  draws from the head of the stream exactly as CPython's `random` module
  consumes words from its underlying generator (`randint lo hi` maps a draw
  into `[lo, hi]`, `shuffle` performs the Fisher-Yates loop
  `for i in reversed(range(1, len(x))): j = randbelow(i+1); swap x[i] x[j]`);
* Pillow primitives are modelled by their documented semantics: `crop` is a
  pure operation returning a fresh raster, zero-filled outside the source
  window, and raising (`none`) on an inverted box; `paste` clips the pasted
  image against the destination bounds and never writes outside them;
  `resize` returns the image unchanged when the target size equals the
  current size (Pillow short-circuits this case) and is otherwise modelled
  by a size-correct placeholder kernel, since no verified property depends
  on resampled pixel values;
* Python's `round` (round-half-to-even) on the exact rationals is `pyRound`;
* fallible code returns `Option` (`none` = the Python code raises).
-/

/-- An RGBA pixel value.  Channel contents are abstract integers; the model
never interprets them beyond equality and the alpha-blend formula. -/
structure Pix where
  r : Int
  g : Int
  b : Int
  a : Int
  deriving DecidableEq, Repr

/-- A raster image: width, height, a mode flag (`hasAlpha` = Pillow mode
"RGBA", otherwise "RGB"), and a total pixel function. -/
structure Raster where
  w : Nat
  h : Nat
  hasAlpha : Bool
  pix : Nat → Nat → Pix

/-- The pseudo-random generator state: the stream of raw draws still to be
consumed.  An empty stream yields 0 forever (any concrete infinite stream is
represented by a finite prefix long enough for the run at hand). -/
abbrev Rng : Type := List Nat

/-- Head draw of the stream. -/
def Rng.draw (g : Rng) : Nat := List.headD g 0

/-- Stream after consuming one draw. -/
def Rng.next (g : Rng) : Rng := List.tail g

/-- `random.randint(lo, hi)` for `lo ≤ hi`: consumes one draw and returns a
value in `[lo, hi]` (model: the draw reduced mod the width of the range). -/
def pyRandintNat (g : Rng) (lo hi : Nat) : Nat × Rng :=
  (lo + g.draw % (hi - lo + 1), g.next)

/-- `random.uniform(a, b)`: consumes one draw and returns
`a + (b - a) * u` with `u ∈ [0, 1]` derived from the draw. -/
def pyUniform (g : Rng) (a b : ℚ) : ℚ × Rng :=
  (a + (b - a) * (((g.draw % 1001 : Nat) : ℚ) / 1000), g.next)

/-- Swap the elements at positions `i` and `j` of a list (no-op positions
outside the list leave it unchanged up to `set`'s own clamping). -/
def listSwap [Inhabited α] (l : List α) (i j : Nat) : List α :=
  (l.set i (l.getD j default)).set j (l.getD i default)

/-- The body of CPython's `random.shuffle`: perform the Fisher-Yates swaps
for indices `i, i-1, ..., 1`, drawing `j = randbelow(i+1)` each time. -/
def shuffleGo [Inhabited α] : List α → Rng → Nat → List α × Rng
  | l, g, 0 => (l, g)
  | l, g, i + 1 => shuffleGo (listSwap l (i + 1) (g.draw % (i + 2))) g.next i

/-- `random.shuffle(x)`: Fisher-Yates from the last index down to 1. -/
def pyShuffle [Inhabited α] (l : List α) (g : Rng) : List α × Rng :=
  shuffleGo l g (l.length - 1)

/-- Python's `round` on an exact rational: round half to even. -/
def pyRound (q : ℚ) : ℤ :=
  if 2 * (q - ⌊q⌋) = 1 then (if Even ⌊q⌋ then ⌊q⌋ else ⌊q⌋ + 1) else round q

/-! ## Pillow primitives -/

/-- A fully transparent black pixel (Pillow's fill for out-of-window crops). -/
def Pix.zero : Pix := ⟨0, 0, 0, 0⟩

/-- `Image.crop((l, t, r, b))`: a pure operation returning a fresh
`(r-l) × (b-t)` raster; pixels outside the source window are zero-filled.
Pillow raises on an inverted box (`r < l` or `b < t`), modelled as `none`. -/
def pilCrop (img : Raster) (l t r b : Int) : Option Raster :=
  if l ≤ r ∧ t ≤ b then
    some { w := (r - l).toNat, h := (b - t).toNat, hasAlpha := img.hasAlpha,
           pix := fun x y =>
             let sx : Int := l + x
             let sy : Int := t + y
             if 0 ≤ sx ∧ sx < img.w ∧ 0 ≤ sy ∧ sy < img.h then
               img.pix sx.toNat sy.toNat
             else Pix.zero }
  else none

/-- Alpha-over compositing of a foreground pixel onto a background pixel,
using the foreground alpha as blend weight (Pillow `paste` with an alpha
mask, 8-bit arithmetic). -/
def blendOver (fg bg : Pix) : Pix :=
  ⟨(fg.r * fg.a + bg.r * (255 - fg.a)) / 255,
   (fg.g * fg.a + bg.g * (255 - fg.a)) / 255,
   (fg.b * fg.a + bg.b * (255 - fg.a)) / 255,
   bg.a⟩

/-- `dest.paste(src, (px, py), mask)`: writes `src`'s pixels at offset
`(px, py)`, clipped against `dest`'s bounds (Pillow clips; a paste can never
write outside the destination).  With `mask = true` (the code passes the
RGBA source itself as mask) each written pixel is alpha-blended, otherwise
it overwrites.  Mutation is modelled by returning the new destination. -/
def pilPaste (dest src : Raster) (px py : Int) (mask : Bool) : Raster :=
  { dest with pix := fun x y =>
      let sx : Int := x - px
      let sy : Int := y - py
      if x < dest.w ∧ y < dest.h ∧ 0 ≤ sx ∧ sx < src.w ∧ 0 ≤ sy ∧ sy < src.h then
        (if mask then blendOver (src.pix sx.toNat sy.toNat) (dest.pix x y)
         else src.pix sx.toNat sy.toNat)
      else dest.pix x y }

/-- `img.resize((w, h))`: Pillow returns a plain copy when the target size
equals the current size; the resampling kernel for a genuine size change is
abstracted by a size-correct nearest-style placeholder, since no verified
property depends on resampled pixel values. -/
def pilResize (img : Raster) (w h : Nat) : Raster :=
  if w = img.w ∧ h = img.h then img
  else { w := w, h := h, hasAlpha := img.hasAlpha,
         pix := fun x y => img.pix (x * img.w / max w 1) (y * img.h / max h 1) }

/-- `Image.new(mode, (w, h), color)` with an opaque fill colour. -/
def pilNew (hasAlpha : Bool) (w h : Nat) (c : Pix) : Raster :=
  ⟨w, h, hasAlpha, fun _ _ => c⟩

/-- `img.convert("RGB")` on a raster that is already alpha-free (pixel data
unchanged, mode cleared). -/
def convertRGB (img : Raster) : Raster :=
  { img with hasAlpha := false }

/-! ## `tiler_toolkit.py` core functions -/

/-- `choose_random_tile_position(img_w, img_h, tile_w, tile_h)`
(`tiler_toolkit.py:82`).  The two `random.randint` calls in the source read
the MODULE-LEVEL generator, not a passed-in one; that ambient stream is the
explicit `g` argument here.  `_ensure_positive` and the too-large guard
raise `ValueError` (`none`). -/
def choose_random_tile_position (img_w img_h tile_w tile_h : Nat) (g : Rng) :
    Option ((Nat × Nat × Nat × Nat) × Rng) :=
  if tile_w = 0 ∨ tile_h = 0 then none
  else if tile_w > img_w ∨ tile_h > img_h then none
  else
    let max_left := img_w - tile_w
    let max_top := img_h - tile_h
    let p1 := pyRandintNat g 0 max_left
    let p2 := pyRandintNat p1.2 0 max_top
    let left := p1.1
    let top := p2.1
    some ((left, top, left + tile_w / 2, top + tile_h / 2), p2.2)

/-- `crop_and_scale_tile(src_img, left, top, tile_w, tile_h, scale)`
(`tiler_toolkit.py:98`; identical to `crop_and_scale_tile_from_src` in
`legacy/tiler-test-05.py:78`).  Note: the source performs no validation of
`scale`; the resized dimensions are clamped to at least 1. -/
def crop_and_scale_tile (src_img : Raster) (left top : Int)
    (tile_w tile_h : Nat) (scale : ℚ) : Option Raster := do
  let tile ← pilCrop src_img left top (left + tile_w) (top + tile_h)
  let new_w := max 1 (pyRound (tile_w * scale)).toNat
  let new_h := max 1 (pyRound (tile_h * scale)).toNat
  some (pilResize tile new_w new_h)

/-- The clip parameters `(src_left, src_top, dst_left, dst_top, src_right,
src_bottom)` computed by `paste_with_center` (`tiler_toolkit.py:114-138`). -/
def pasteClipParams (dest src : Raster) (center_x center_y : Int) :
    Int × Int × Int × Int × Int × Int :=
  let src_w : Int := src.w
  let src_h : Int := src.h
  let dest_w : Int := dest.w
  let dest_h : Int := dest.h
  let paste_x := center_x - src_w / 2
  let paste_y := center_y - src_h / 2
  let src_left := if paste_x < 0 then -paste_x else 0
  let dst_left := if paste_x < 0 then 0 else paste_x
  let src_top := if paste_y < 0 then -paste_y else 0
  let dst_top := if paste_y < 0 then 0 else paste_y
  let src_right := if paste_x + src_w > dest_w then src_w - ((paste_x + src_w) - dest_w) else src_w
  let src_bottom := if paste_y + src_h > dest_h then src_h - ((paste_y + src_h) - dest_h) else src_h
  (src_left, src_top, dst_left, dst_top, src_right, src_bottom)

/-- Whether `paste_with_center`'s clipped overlap region is empty (the
early-return guard at `tiler_toolkit.py:140`). -/
def pasteOverlapEmpty (dest src : Raster) (center_x center_y : Int) : Bool :=
  let p := pasteClipParams dest src center_x center_y
  p.1 ≥ p.2.2.2.2.1 ∨ p.2.1 ≥ p.2.2.2.2.2

/-- `paste_with_center(dest, src, center_x, center_y)`
(`tiler_toolkit.py:114`).  In-place mutation of `dest` is modelled by
returning the new destination raster; `none` models a raised exception. -/
def paste_with_center (dest src : Raster) (center_x center_y : Int) :
    Option Raster :=
  let p := pasteClipParams dest src center_x center_y
  let src_left := p.1
  let src_top := p.2.1
  let dst_left := p.2.2.1
  let dst_top := p.2.2.2.1
  let src_right := p.2.2.2.2.1
  let src_bottom := p.2.2.2.2.2
  if src_left ≥ src_right ∨ src_top ≥ src_bottom then some dest
  else do
    let src_crop ← pilCrop src src_left src_top src_right src_bottom
    some (pilPaste dest src_crop dst_left dst_top src_crop.hasAlpha)

/-- `flatten_opaque(img, bg_color)` (`tiler_toolkit.py:148`): composite an
RGBA tile over a solid background using its alpha channel as mask;
otherwise convert to RGB. -/
def flatten_opaque (img : Raster) (bg_color : Pix) : Raster :=
  if img.hasAlpha then
    let bg := pilNew false img.w img.h bg_color
    pilPaste bg img 0 0 true
  else convertRGB img

/-- `TilePlacement` (`tiler_toolkit.py:24`). -/
structure TilePlacement where
  image : Raster
  center : Nat × Nat
  scale : ℚ
  box : Nat × Nat × Nat × Nat

/-- A junk placement standing in for Python's `IndexError`: `placements[idx]`
is only ever read at indices produced by shuffling `range(tile_count)`. -/
def TilePlacement.dummy : TilePlacement :=
  ⟨pilNew false 0 0 Pix.zero, (0, 0), 0, (0, 0, 0, 0)⟩

/-- The placement-building loop of `build_layered_tiles`
(`tiler_toolkit.py:195-208`), threading the ambient module-level stream `g`
(consumed by `choose_random_tile_position`) and the explicit `rng` stream
(consumed by `rng.uniform`) separately, exactly as the source reads them. -/
def bltPlacements (src : Raster) (tile_w tile_h : Nat) (min_scale max_scale : ℚ)
    (background : Pix) : Nat → Rng → Rng → Option (List TilePlacement × Rng × Rng)
  | 0, g, r => some ([], g, r)
  | k + 1, g, r => do
    let (pos, g') ← choose_random_tile_position src.w src.h tile_w tile_h g
    let (left, top, cx, cy) := pos
    let (scale, r') := pyUniform r min_scale max_scale
    let tile ← crop_and_scale_tile src left top tile_w tile_h scale
    let placement : TilePlacement :=
      { image := flatten_opaque tile background
        center := (cx, cy)
        scale := scale
        box := (left, top, left + tile_w, top + tile_h) }
    let (rest, g'', r'') ← bltPlacements src tile_w tile_h min_scale max_scale
      background k g' r'
    some (placement :: rest, g'', r'')

/-- The painting loop of `build_layered_tiles` (`tiler_toolkit.py:216-220`):
paste the placements onto the canvas in layer order. -/
def bltPaint (placements : List TilePlacement) : Raster → List Nat → Option Raster
  | canvas, [] => some canvas
  | canvas, idx :: rest => do
    let placement := placements.getD idx TilePlacement.dummy
    let canvas' ← paste_with_center canvas placement.image
      placement.center.1 placement.center.2
    bltPaint placements canvas' rest

/-- `build_layered_tiles(src, tile_w, tile_h, tile_count, min_scale,
max_scale, background, rng)` (`tiler_toolkit.py:182`).  `g` is the ambient
module-level `random` stream that `choose_random_tile_position` actually
reads; `rng` is the explicitly passed generator (used by the source only
for `uniform` and the layer-order `shuffle`).  Returns the canvas and both
final stream states. -/
def build_layered_tiles (src : Raster) (tile_w tile_h tile_count : Nat)
    (min_scale max_scale : ℚ) (background : Pix) (g rng : Rng) :
    Option (Raster × Rng × Rng) := do
  let (placements, g', rng') ← bltPlacements src tile_w tile_h min_scale
    max_scale background tile_count g rng
  let (order, rng'') := pyShuffle (List.range tile_count) rng'
  let canvas := pilNew false src.w src.h background
  let canvas' ← bltPaint placements canvas order
  some (canvas', g', rng'')

/-! ## `legacy/tiler-test-05.py`: permutation allocation and easing -/

/-- The recursion of `itertools.permutations` in lexicographic pick order:
for each index `i` of `l` in order, emit `l[i]` followed by each permutation
of `l` with index `i` erased.  `fuel` is always `l.length`. -/
def permsLexAux : Nat → List Nat → List (List Nat)
  | 0, _ => [[]]
  | fuel + 1, l =>
    (List.range l.length).flatMap fun i =>
      (permsLexAux fuel (l.eraseIdx i)).map fun p => l.getD i 0 :: p

/-- `list(itertools.permutations(l))` for a list of naturals. -/
def permsLex (l : List Nat) : List (List Nat) :=
  permsLexAux l.length l

/-- The enumeration ceiling `max_enum` (`tiler-test-05.py:166`). -/
def maxEnum : Nat := 200000

/-- The dedup-by-shuffle fallback loop of `build_unique_orders`
(`tiler-test-05.py:189-197`): while fewer than `frames` orders are collected
and attempts remain, shuffle a fresh `range(tiles_n)`, skip candidates seen
before, append new ones.  `fuel` is the remaining attempt budget. -/
def buoFallback (tiles_n frames : Nat) :
    Nat → List (List Nat) → List (List Nat) → Rng → List (List Nat) × Rng
  | 0, _, orders, g => (orders, g)
  | fuel + 1, seen, orders, g =>
    if orders.length < frames then
      let p := pyShuffle (List.range tiles_n) g
      let candidate := p.1
      if candidate ∈ seen then buoFallback tiles_n frames fuel seen orders p.2
      else buoFallback tiles_n frames fuel (candidate :: seen)
        (orders ++ [candidate]) p.2
    else (orders, g)

/-- `build_unique_orders(tiles_n, frames, rng)` (`tiler-test-05.py:160`).
If `frames ≤ tiles_n!` and `tiles_n! ≤ max_enum`, enumerate all
permutations, shuffle the enumeration, and take the first `frames`;
otherwise fall back to dedup-by-shuffle under the attempt budget
`max(1000, frames * 50)` (the result may then be shorter than `frames`). -/
def build_unique_orders (tiles_n frames : Nat) (g : Rng) :
    List (List Nat) × Rng :=
  let total_perms := Nat.factorial tiles_n
  if frames ≤ total_perms ∧ total_perms ≤ maxEnum then
    let p := pyShuffle (permsLex (List.range tiles_n)) g
    (p.1.take frames, p.2)
  else
    buoFallback tiles_n frames (max 1000 (frames * 50)) [] [] g

/-- The shortfall-filling loop in `main` (`tiler-test-05.py:290-296`):
while fewer than `frames` orders exist, append one more random shuffle of
`range(tiles_n)`.  `fuel` bounds the iterations (each appends exactly one
order, so `frames` iterations always suffice). -/
def fillOrders (tiles_n frames : Nat) :
    Nat → List (List Nat) → Rng → List (List Nat) × Rng
  | 0, orders, g => (orders, g)
  | fuel + 1, orders, g =>
    if orders.length < frames then
      let p := pyShuffle (List.range tiles_n) g
      fillOrders tiles_n frames fuel (orders ++ [p.1]) p.2
    else (orders, g)

/-- The complete permutation-allocator behaviour in unique-permutations
mode: `build_unique_orders` followed by `main`'s shortfall fill
(`tiler-test-05.py:287-296`). -/
def allocate (tiles_n frames : Nat) (g : Rng) : List (List Nat) × Rng :=
  let p := build_unique_orders tiles_n frames g
  fillOrders tiles_n frames frames p.1 p.2

/-- `ease_smooth_sine(t)` (`tiler-test-05.py:202`), idealized over the real
numbers: `0.5 * (1 - cos(pi * t))`. -/
noncomputable def ease_smooth_sine (t : ℝ) : ℝ :=
  0.5 * (1 - Real.cos (Real.pi * t))

/-! ## State-passing view of `paste_with_center` for the frame property -/

/-- The two rasters `paste_with_center` can reach: the destination it
mutates and the source it reads. -/
structure PasteHeap where
  dest : Raster
  src : Raster

/-- `paste_with_center` acting on the full heap: `crop` reads `src` and
returns a fresh raster (a pure operation in Pillow), `paste` writes `dest`.
Every step's effect on both rasters is recorded. -/
def paste_with_center_heap (s : PasteHeap) (center_x center_y : Int) :
    Option PasteHeap :=
  let p := pasteClipParams s.dest s.src center_x center_y
  let src_left := p.1
  let src_top := p.2.1
  let dst_left := p.2.2.1
  let dst_top := p.2.2.2.1
  let src_right := p.2.2.2.2.1
  let src_bottom := p.2.2.2.2.2
  if src_left ≥ src_right ∨ src_top ≥ src_bottom then some s
  else do
    let src_crop ← pilCrop s.src src_left src_top src_right src_bottom
    some ⟨pilPaste s.dest src_crop dst_left dst_top src_crop.hasAlpha, s.src⟩

/-! ## Helper lemmas: swaps and shuffles are permutations -/

open List in
lemma getD_cons_set_perm [Inhabited α] :
    ∀ (t : List α) (m : Nat) (a : α), m < t.length →
      (t.getD m default :: t.set m a) ~ (a :: t)
  | b :: s, 0, a, _ => by
    simpa using Perm.swap a b s
  | b :: s, m + 1, a, hm => by
    have ih := getD_cons_set_perm s m a (by simpa using hm)
    calc s.getD m default :: b :: s.set m a
        ~ b :: s.getD m default :: s.set m a := Perm.swap _ _ _
      _ ~ b :: a :: s := Perm.cons _ ih
      _ ~ a :: b :: s := Perm.swap _ _ _

open List in
lemma listSwap_perm [Inhabited α] :
    ∀ (l : List α) (i j : Nat), i < l.length → j < l.length →
      listSwap l i j ~ l
  | a :: t, 0, 0, _, _ => by simp [listSwap]
  | a :: t, 0, m + 1, _, hj => by
    simpa [listSwap] using getD_cons_set_perm t m a (by simpa using hj)
  | a :: t, k + 1, 0, hi, _ => by
    simpa [listSwap] using getD_cons_set_perm t k a (by simpa using hi)
  | a :: t, k + 1, m + 1, hi, hj => by
    have ih := listSwap_perm t k m (by simpa using hi) (by simpa using hj)
    simpa [listSwap] using Perm.cons a ih

open List in
lemma shuffleGo_perm [Inhabited α] :
    ∀ (i : Nat) (l : List α) (g : Rng), i < l.length → (shuffleGo l g i).1 ~ l
  | 0, _, _, _ => Perm.refl _
  | i + 1, l, g, hi => by
    have hlen : (listSwap l (i + 1) (g.draw % (i + 2))).length = l.length := by
      simp [listSwap]
    have hswap : listSwap l (i + 1) (g.draw % (i + 2)) ~ l :=
      listSwap_perm l (i + 1) (g.draw % (i + 2)) hi
        (lt_of_lt_of_le (Nat.mod_lt _ (by omega)) (by omega))
    have ih := shuffleGo_perm i (listSwap l (i + 1) (g.draw % (i + 2))) g.next
      (by omega)
    exact (shuffleGo_perm i _ g.next (by omega)).trans hswap

open List in
lemma pyShuffle_perm [Inhabited α] (l : List α) (g : Rng) :
    (pyShuffle l g).1 ~ l := by
  rcases Nat.eq_zero_or_pos l.length with h | h
  · unfold pyShuffle
    rw [h]
    exact Perm.refl _
  · exact shuffleGo_perm (l.length - 1) l g (by omega)

lemma pyShuffle_length [Inhabited α] (l : List α) (g : Rng) :
    (pyShuffle l g).1.length = l.length :=
  (pyShuffle_perm l g).length_eq

/-! ## Helper lemmas: the lexicographic permutation enumeration -/

open List in
lemma getD_cons_eraseIdx_perm [Inhabited α] :
    ∀ (l : List α) (i : Nat), i < l.length →
      (l.getD i default :: l.eraseIdx i) ~ l
  | a :: t, 0, _ => by simp
  | a :: t, k + 1, hi => by
    have ih := getD_cons_eraseIdx_perm t k (by simpa using hi)
    calc t.getD k default :: a :: t.eraseIdx k
        ~ a :: t.getD k default :: t.eraseIdx k := Perm.swap _ _ _
      _ ~ a :: t := Perm.cons _ ih

open List in
lemma permsLexAux_mem_perm :
    ∀ (fuel : Nat) (l : List Nat), fuel = l.length →
      ∀ p ∈ permsLexAux fuel l, p ~ l := by
  intro fuel
  induction fuel with
  | zero =>
    intro l hl p hp
    have : l = [] := List.length_eq_zero.mp hl.symm
    subst this
    simp only [permsLexAux, List.mem_singleton] at hp
    simp [hp]
  | succ fuel ih =>
    intro l hl p hp
    simp only [permsLexAux, List.mem_flatMap, List.mem_map, List.mem_range] at hp
    obtain ⟨i, hi, q, hq, rfl⟩ := hp
    have hfl : fuel = (l.eraseIdx i).length := by
      rw [List.length_eraseIdx]
      simp [hi]
      omega
    have hperm := ih (l.eraseIdx i) hfl q hq
    have hhead : (l.getD i 0 :: l.eraseIdx i) ~ l :=
      getD_cons_eraseIdx_perm l i hi
    exact (Perm.cons _ hperm).trans hhead

lemma permsLexAux_length :
    ∀ (fuel : Nat) (l : List Nat), fuel = l.length →
      (permsLexAux fuel l).length = Nat.factorial fuel := by
  intro fuel
  induction fuel with
  | zero => intro l _; simp [permsLexAux]
  | succ fuel ih =>
    intro l hl
    simp only [permsLexAux]
    rw [List.length_flatMap]
    simp only [Function.comp_def, List.length_map]
    have hcongr : ∀ i ∈ List.range l.length,
        (permsLexAux fuel (l.eraseIdx i)).length = Nat.factorial fuel := by
      intro i hi
      apply ih
      rw [List.length_eraseIdx]
      simp [List.mem_range.mp hi]
      omega
    rw [List.map_congr_left hcongr]
    simp [← hl, Nat.factorial_succ, Nat.mul_comm]

open List in
lemma permsLexAux_nodup :
    ∀ (fuel : Nat) (l : List Nat), fuel = l.length → l.Nodup →
      (permsLexAux fuel l).Nodup := by
  intro fuel
  induction fuel with
  | zero => intro l _ _; simp [permsLexAux]
  | succ fuel ih =>
    intro l hl hnd
    simp only [permsLexAux]
    rw [List.nodup_flatMap]
    constructor
    · intro i _
      apply List.Nodup.map
      · intro p q hpq
        simpa using hpq
      · apply ih
        · rw [List.length_eraseIdx]
          simp [List.mem_range.mp ‹i ∈ List.range l.length›]
          omega
        · exact hnd.sublist (List.eraseIdx_sublist ..)
    · have hpl := List.pairwise_lt_range l.length
      apply hpl.imp_of_mem
      intro i j hi hj hij
      intro p hpi hpj
      simp only [List.mem_map] at hpi hpj
      obtain ⟨qi, _, hqi⟩ := hpi
      obtain ⟨qj, _, hqj⟩ := hpj
      have hhead : l.getD i 0 = l.getD j 0 := by
        rw [← hqi] at hqj
        exact (List.cons.injEq .. ▸ hqj).1.symm
      have hi' : i < l.length := List.mem_range.mp hi
      have hj' : j < l.length := List.mem_range.mp hj
      rw [List.getD_eq_getElem l 0 hi', List.getD_eq_getElem l 0 hj'] at hhead
      exact absurd ((List.Nodup.getElem_inj_iff hnd).mp hhead) (by omega)

lemma permsLex_range_length (n : Nat) :
    (permsLex (List.range n)).length = Nat.factorial n := by
  unfold permsLex
  rw [permsLexAux_length (List.range n).length (List.range n) rfl]
  simp

lemma permsLex_range_nodup (n : Nat) : (permsLex (List.range n)).Nodup :=
  permsLexAux_nodup _ _ rfl (List.nodup_range n)

open List in
lemma permsLex_range_mem_perm (n : Nat) (p : List Nat)
    (hp : p ∈ permsLex (List.range n)) : p ~ List.range n :=
  permsLexAux_mem_perm _ _ rfl p hp

/-! ## Helper lemmas: the allocator loops -/

lemma buoFallback_length_le (n F : Nat) :
    ∀ (fuel : Nat) (seen orders : List (List Nat)) (g : Rng),
      orders.length ≤ F → (buoFallback n F fuel seen orders g).1.length ≤ F := by
  intro fuel
  induction fuel with
  | zero => intro seen orders g h; simpa [buoFallback] using h
  | succ fuel ih =>
    intro seen orders g h
    simp only [buoFallback]
    split
    · split
      · exact ih _ _ _ h
      · exact ih _ _ _ (by simp; omega)
    · simpa using h

open List in
lemma buoFallback_mem (n F : Nat) :
    ∀ (fuel : Nat) (seen orders : List (List Nat)) (g : Rng) (p : List Nat),
      p ∈ (buoFallback n F fuel seen orders g).1 →
      p ∈ orders ∨ p ~ List.range n := by
  intro fuel
  induction fuel with
  | zero => intro seen orders g p hp; exact Or.inl (by simpa [buoFallback] using hp)
  | succ fuel ih =>
    intro seen orders g p hp
    simp only [buoFallback] at hp
    split at hp
    · split at hp
      · exact ih _ _ _ _ hp
      · rcases ih _ _ _ _ hp with hmem | hperm
        · rcases List.mem_append.mp hmem with h | h
          · exact Or.inl h
          · refine Or.inr ?_
            have : p = (pyShuffle (List.range n) g).1 := by simpa using h
            rw [this]
            exact pyShuffle_perm _ _
        · exact Or.inr hperm
    · exact Or.inl hp

lemma fillOrders_length (n F : Nat) :
    ∀ (fuel : Nat) (orders : List (List Nat)) (g : Rng),
      F ≤ orders.length + fuel → orders.length ≤ F →
      (fillOrders n F fuel orders g).1.length = F := by
  intro fuel
  induction fuel with
  | zero =>
    intro orders g h1 h2
    simp only [fillOrders]
    show orders.length = F
    omega
  | succ fuel ih =>
    intro orders g h1 h2
    simp only [fillOrders]
    split
    · apply ih
      · simp; omega
      · simp; omega
    · show orders.length = F
      omega

open List in
lemma fillOrders_mem (n F : Nat) :
    ∀ (fuel : Nat) (orders : List (List Nat)) (g : Rng) (p : List Nat),
      p ∈ (fillOrders n F fuel orders g).1 →
      p ∈ orders ∨ p ~ List.range n := by
  intro fuel
  induction fuel with
  | zero => intro orders g p hp; exact Or.inl (by simpa [fillOrders] using hp)
  | succ fuel ih =>
    intro orders g p hp
    simp only [fillOrders] at hp
    split at hp
    · rcases ih _ _ _ hp with hmem | hperm
      · rcases List.mem_append.mp hmem with h | h
        · exact Or.inl h
        · refine Or.inr ?_
          have : p = (pyShuffle (List.range n) g).1 := by simpa using h
          rw [this]
          exact pyShuffle_perm _ _
      · exact Or.inr hperm
    · exact Or.inl hp

lemma build_unique_orders_length_le (n F : Nat) (g : Rng) :
    (build_unique_orders n F g).1.length ≤ F := by
  unfold build_unique_orders
  dsimp only
  split
  · simp
  · exact buoFallback_length_le n F _ [] [] g (by simp)

open List in
lemma build_unique_orders_mem_perm (n F : Nat) (g : Rng) (p : List Nat)
    (hp : p ∈ (build_unique_orders n F g).1) : p ~ List.range n := by
  unfold build_unique_orders at hp
  dsimp only at hp
  split at hp
  · simp only at hp
    have hmem : p ∈ (pyShuffle (permsLex (List.range n)) g).1 :=
      List.mem_of_mem_take hp
    exact permsLex_range_mem_perm n p
      ((pyShuffle_perm (permsLex (List.range n)) g).mem_iff.mp hmem)
  · rcases buoFallback_mem n F _ [] [] g p hp with h | h
    · simp at h
    · exact h

/-! ## Remaining helper lemmas -/

lemma pyRound_nonpos (q : ℚ) (h : q ≤ 0) : pyRound q ≤ 0 := by
  unfold pyRound
  split
  · rename_i hhalf
    have hfl : (⌊q⌋ : ℚ) = q - 1 / 2 := by linarith
    have hneg : ⌊q⌋ ≤ -1 := by
      by_contra hc
      push_neg at hc
      have h0 : (0 : ℤ) ≤ ⌊q⌋ := by omega
      have : (0 : ℚ) ≤ (⌊q⌋ : ℚ) := by exact_mod_cast h0
      linarith
    split <;> omega
  · rw [round_eq]
    calc ⌊q + 1 / 2⌋ ≤ ⌊(1 / 2 : ℚ)⌋ := Int.floor_le_floor (by linarith)
      _ = 0 := by norm_num

lemma pilResize_w (img : Raster) (w h : Nat) : (pilResize img w h).w = w := by
  unfold pilResize
  split
  · rename_i hc; exact hc.1.symm
  · rfl

lemma pilResize_h (img : Raster) (w h : Nat) : (pilResize img w h).h = h := by
  unfold pilResize
  split
  · rename_i hc; exact hc.2.symm
  · rfl

/-! ## Claims -/

/-- C3: whenever the random tile sampler returns `(left, top, center_x,
center_y)` — for tile dimensions that are positive and no larger than the
image, and any generator state — the sampled box is fully contained in the
image: `left ≥ 0`, `top ≥ 0`, `left + tile_w ≤ img_w`,
`top + tile_h ≤ img_h`. -/
theorem choose_random_tile_position_containment
    (img_w img_h tile_w tile_h : Nat) (g : Rng)
    (left top cx cy : Nat) (g' : Rng)
    (hw : 0 < tile_w) (hw2 : tile_w ≤ img_w)
    (hh : 0 < tile_h) (hh2 : tile_h ≤ img_h)
    (h : choose_random_tile_position img_w img_h tile_w tile_h g =
      some ((left, top, cx, cy), g')) :
    0 ≤ left ∧ 0 ≤ top ∧ left + tile_w ≤ img_w ∧ top + tile_h ≤ img_h := by
  unfold choose_random_tile_position at h
  rw [if_neg (by omega), if_neg (by omega)] at h
  simp only [Option.some.injEq, Prod.mk.injEq] at h
  obtain ⟨⟨hleft, htop, _, _⟩, _⟩ := h
  unfold pyRandintNat Rng.draw Rng.next at hleft htop
  dsimp only at hleft htop
  simp only [Nat.sub_zero, Nat.zero_add] at hleft htop
  have h1 : List.headD g 0 % (img_w - tile_w + 1) < img_w - tile_w + 1 :=
    Nat.mod_lt _ (by omega)
  have h2 : List.headD (List.tail g) 0 % (img_h - tile_h + 1) < img_h - tile_h + 1 :=
    Nat.mod_lt _ (by omega)
  omega

/-- C3 witness: a concrete invocation (image 10×8, tile 3×2, stream
`[4, 9]`) returns the box `(4, 2)` with center `(5, 3)`, which is fully
contained in the image. -/
theorem choose_random_tile_position_containment_witness :
    choose_random_tile_position 10 8 3 2 [4, 9] = some ((4, 2, 5, 3), []) ∧
    (0 ≤ 4 ∧ 0 ≤ 2 ∧ 4 + 3 ≤ 10 ∧ 2 + 2 ≤ 8) :=
  ⟨by decide,
   choose_random_tile_position_containment 10 8 3 2 [4, 9] 4 2 5 3 []
     (by decide) (by decide) (by decide) (by decide) (by decide)⟩

/-- C7: whenever the random tile sampler returns, the center satisfies
`center_x = left + tile_w / 2` and `center_y = top + tile_h / 2` with
integer floor division (so for even tile dimensions the center is biased
toward the top-left half-pixel — the code keeps this convention). -/
theorem choose_random_tile_position_center_floor
    (img_w img_h tile_w tile_h : Nat) (g : Rng)
    (left top cx cy : Nat) (g' : Rng)
    (h : choose_random_tile_position img_w img_h tile_w tile_h g =
      some ((left, top, cx, cy), g')) :
    cx = left + tile_w / 2 ∧ cy = top + tile_h / 2 := by
  unfold choose_random_tile_position at h
  split at h
  · exact absurd h (by simp)
  · split at h
    · exact absurd h (by simp)
    · simp only [Option.some.injEq, Prod.mk.injEq] at h
      obtain ⟨⟨hleft, htop, hcx, hcy⟩, _⟩ := h
      omega

/-- C7 witness: image 9×9, tile 4×4, stream `[5, 6]` yields the box
`(5, 0)` and center `(7, 2) = (5 + 4/2, 0 + 4/2)`. -/
theorem choose_random_tile_position_center_floor_witness :
    choose_random_tile_position 9 9 4 4 [5, 6] = some ((5, 0, 7, 2), []) ∧
    (7 = 5 + 4 / 2 ∧ 2 = 0 + 4 / 2) :=
  ⟨by decide,
   choose_random_tile_position_center_floor 9 9 4 4 [5, 6] 5 0 7 2 [] (by decide)⟩

/-- C8: the cosine ease function `ease(t) = 0.5 * (1 - cos(pi * t))`
(idealized over the reals) satisfies `ease(0) = 0`, `ease(1) = 1` and
`ease(0.5) = 0.5`. -/
theorem ease_smooth_sine_boundary :
    ease_smooth_sine 0 = 0 ∧ ease_smooth_sine 1 = 1 ∧
    ease_smooth_sine (1 / 2) = 1 / 2 := by
  refine ⟨?_, ?_, ?_⟩ <;> unfold ease_smooth_sine
  · rw [mul_zero, Real.cos_zero]
    norm_num
  · rw [mul_one, Real.cos_pi]
    norm_num
  · rw [show Real.pi * (1 / 2 : ℝ) = Real.pi / 2 by ring, Real.cos_pi_div_two]
    norm_num

/-- C4 counterexample: with `scale = 0 ≤ 0` on an 8×8 source the tile
renderer does NOT fail — it returns a raster (the claim says it fails with
`InvalidScale` rather than returning a raster). -/
theorem crop_and_scale_tile_zero_scale_returns_raster :
    (crop_and_scale_tile (pilNew false 8 8 Pix.zero) 0 0 4 4 0).isSome = true := by
  decide

/-- C4 amended: for `scale ≤ 0` the tile renderer performs no validation
and does not fail; the `max(1, round(...))` clamps collapse both resized
dimensions to 1, so it returns a 1×1 raster.  (Scale-range validation
happens only in the legacy CLI entry point, before rendering.) -/
theorem crop_and_scale_tile_nonpositive_scale_clamps
    (src : Raster) (left top : Int) (tile_w tile_h : Nat) (scale : ℚ)
    (hs : scale ≤ 0) :
    (crop_and_scale_tile src left top tile_w tile_h scale).map
      (fun r => (r.w, r.h)) = some (1, 1) := by
  have hmulw : (tile_w : ℚ) * scale ≤ 0 := by
    have h0 : (0 : ℚ) ≤ (tile_w : ℚ) := by positivity
    nlinarith
  have hmulh : (tile_h : ℚ) * scale ≤ 0 := by
    have h0 : (0 : ℚ) ≤ (tile_h : ℚ) := by positivity
    nlinarith
  have hw : max 1 (pyRound ((tile_w : ℚ) * scale)).toNat = 1 := by
    rw [Int.toNat_of_nonpos (pyRound_nonpos _ hmulw)]
    decide
  have hh : max 1 (pyRound ((tile_h : ℚ) * scale)).toNat = 1 := by
    rw [Int.toNat_of_nonpos (pyRound_nonpos _ hmulh)]
    decide
  unfold crop_and_scale_tile
  rw [pilCrop, if_pos ⟨by omega, by omega⟩]
  simp [hw, hh, pilResize_w, pilResize_h]

/-- C4 witness: at `scale = -1 ≤ 0` on a 6×6 source, the renderer returns a
raster whose dimensions are `(1, 1)`. -/
theorem crop_and_scale_tile_nonpositive_scale_clamps_witness :
    (crop_and_scale_tile (pilNew false 6 6 Pix.zero) 1 1 3 2 (-1)).map
      (fun r => (r.w, r.h)) = some (1, 1) :=
  crop_and_scale_tile_nonpositive_scale_clamps
    (pilNew false 6 6 Pix.zero) 1 1 3 2 (-1) (by norm_num)

/-- C2: for every destination raster, source raster and any integer center
(including centers placing the source entirely outside the destination),
`paste_with_center` never raises (always returns `some`), the result keeps
the destination's dimensions with every pixel outside those bounds
unchanged, and when the clipped overlap region is empty it returns the
destination unmodified (a silent no-op). -/
theorem paste_with_center_safe (dest src : Raster) (center_x center_y : Int) :
    (∃ d', paste_with_center dest src center_x center_y = some d' ∧
      d'.w = dest.w ∧ d'.h = dest.h ∧
      ∀ x y : Nat, dest.w ≤ x ∨ dest.h ≤ y → d'.pix x y = dest.pix x y) ∧
    (pasteOverlapEmpty dest src center_x center_y = true →
      paste_with_center dest src center_x center_y = some dest) := by
  unfold paste_with_center pasteOverlapEmpty
  by_cases hguard :
      (pasteClipParams dest src center_x center_y).1 ≥
        (pasteClipParams dest src center_x center_y).2.2.2.2.1 ∨
      (pasteClipParams dest src center_x center_y).2.1 ≥
        (pasteClipParams dest src center_x center_y).2.2.2.2.2
  · rw [if_pos hguard]
    exact ⟨⟨dest, rfl, rfl, rfl, fun _ _ _ => rfl⟩, fun _ => rfl⟩
  · rw [if_neg hguard]
    push_neg at hguard
    constructor
    · rw [pilCrop, if_pos ⟨le_of_lt hguard.1, le_of_lt hguard.2⟩]
      refine ⟨_, rfl, rfl, rfl, fun x y hxy => ?_⟩
      show (if x < dest.w ∧ y < dest.h ∧ _ then _ else dest.pix x y) = dest.pix x y
      rw [if_neg]
      intro hc
      rcases hxy with hx | hy
      · omega
      · omega
    · intro habs
      rw [decide_eq_true_iff] at habs
      omega

/-- C2 witness: a 1×1 source pasted with center `(10, 10)` lies entirely
outside a 2×2 destination; the overlap is empty and the call returns the
destination unmodified. -/
theorem paste_with_center_safe_witness :
    pasteOverlapEmpty (pilNew false 2 2 Pix.zero) (pilNew false 1 1 Pix.zero)
      10 10 = true ∧
    paste_with_center (pilNew false 2 2 Pix.zero) (pilNew false 1 1 Pix.zero)
      10 10 = some (pilNew false 2 2 Pix.zero) :=
  ⟨by decide,
   (paste_with_center_safe (pilNew false 2 2 Pix.zero)
     (pilNew false 1 1 Pix.zero) 10 10).2 (by decide)⟩

/-- C9: `paste_with_center` mutates only the destination: on the heap view
of the call (destination and source threaded through every step), the
source raster is unchanged — the clipped region is taken from `src` by a
non-destructive crop and all writes go to `dest`. -/
theorem paste_with_center_heap_preserves_src (s : PasteHeap)
    (center_x center_y : Int) (s' : PasteHeap)
    (h : paste_with_center_heap s center_x center_y = some s') :
    s'.src = s.src := by
  unfold paste_with_center_heap at h
  dsimp only at h
  split at h
  · cases h
    rfl
  · rcases hc : pilCrop s.src _ _ _ _ with _ | c
    · rw [hc] at h
      exact absurd h (by simp)
    · rw [hc] at h
      injection h with h2
      rw [← h2]

/-- C9 witness: a concrete heap (2×2 destination, 1×1 source) pasted at
center `(10, 10)`; the source raster after the call is the one before it. -/
theorem paste_with_center_heap_preserves_src_witness :
    PasteHeap.src ⟨pilNew false 2 2 Pix.zero, pilNew false 1 1 Pix.zero⟩ =
      pilNew false 1 1 Pix.zero :=
  paste_with_center_heap_preserves_src
    ⟨pilNew false 2 2 Pix.zero, pilNew false 1 1 Pix.zero⟩ 10 10
    ⟨pilNew false 2 2 Pix.zero, pilNew false 1 1 Pix.zero⟩ rfl

/-- C5: when `F ≤ N!` and `N!` is at or below the enumeration ceiling
(200000), the permutation allocator's enumeration branch returns exactly
`F` pairwise-distinct orders, each a permutation of `{0, ..., N-1}`. -/
theorem build_unique_orders_enum_distinct (n F : Nat) (g : Rng)
    (hn : 1 ≤ n) (hF : 1 ≤ F) (hFt : F ≤ Nat.factorial n)
    (hceil : Nat.factorial n ≤ maxEnum) :
    (build_unique_orders n F g).1.length = F ∧
    (build_unique_orders n F g).1.Nodup ∧
    ∀ p ∈ (build_unique_orders n F g).1, p.Perm (List.range n) := by
  have hbranch : build_unique_orders n F g =
      ((pyShuffle (permsLex (List.range n)) g).1.take F,
       (pyShuffle (permsLex (List.range n)) g).2) := by
    unfold build_unique_orders
    dsimp only
    rw [if_pos ⟨hFt, hceil⟩]
  rw [hbranch]
  have hnodup : (pyShuffle (permsLex (List.range n)) g).1.Nodup :=
    (pyShuffle_perm (permsLex (List.range n)) g).nodup_iff.mpr
      (permsLex_range_nodup n)
  refine ⟨?_, ?_, ?_⟩
  · rw [List.length_take, pyShuffle_length, permsLex_range_length]
    omega
  · exact hnodup.sublist (List.take_sublist ..)
  · intro p hp
    exact permsLex_range_mem_perm n p
      ((pyShuffle_perm (permsLex (List.range n)) g).mem_iff.mp
        (List.mem_of_mem_take hp))

/-- C5 witness: `N = 4`, `F = 10` (the claim's concrete instance,
`4! = 24 ≥ 10`) with a concrete generator stream: the allocator returns 10
orders and they are pairwise distinct. -/
theorem build_unique_orders_enum_distinct_witness :
    (build_unique_orders 4 10
        [17, 3, 9, 22, 5, 14, 8, 1, 19, 11, 2, 7, 21, 6, 13, 4, 18, 10, 0,
         15, 20, 12, 16]).1.length = 10 ∧
    (build_unique_orders 4 10
        [17, 3, 9, 22, 5, 14, 8, 1, 19, 11, 2, 7, 21, 6, 13, 4, 18, 10, 0,
         15, 20, 12, 16]).1.Nodup :=
  ⟨(build_unique_orders_enum_distinct 4 10 _
      (by decide) (by decide) (by decide) (by decide)).1,
   (build_unique_orders_enum_distinct 4 10 _
      (by decide) (by decide) (by decide) (by decide)).2.1⟩

/-- C6: for every `N ≥ 1`, `F ≥ 1` and generator state, the permutation
allocator (unique-permutations mode: `build_unique_orders` plus the
caller's shortfall fill) returns a list of exactly `F` layer orders — a
shortfall within the attempt budget `max(1000, 50*F)` is topped up with
additional (possibly repeated) shuffles, never an error or a short list. -/
theorem allocate_length_eq_frames (n F : Nat) (g : Rng)
    (hn : 1 ≤ n) (hF : 1 ≤ F) :
    (allocate n F g).1.length = F := by
  unfold allocate
  dsimp only
  apply fillOrders_length
  · have := build_unique_orders_length_le n F g
    omega
  · exact build_unique_orders_length_le n F g

/-- C6 witness: `N = 2`, `F = 5` with the empty stream (every draw 0): the
dedup loop can collect at most 2 distinct orders, yet the allocator still
returns exactly 5. -/
theorem allocate_length_eq_frames_witness :
    (allocate 2 5 ([] : Rng)).1.length = 5 :=
  allocate_length_eq_frames 2 5 [] (by decide) (by decide)

/-- C10: every layer order returned by the permutation allocator — from the
enumeration branch, the dedup-by-shuffle fallback, or the shortfall fill —
is a genuine permutation of `{0, ..., N-1}`, with each tile index occurring
exactly once. -/
theorem allocate_mem_perm (n F : Nat) (g : Rng) (p : List Nat)
    (hp : p ∈ (allocate n F g).1) :
    p.Perm (List.range n) ∧ ∀ i : Nat, i < n → p.count i = 1 := by
  have hperm : p.Perm (List.range n) := by
    unfold allocate at hp
    dsimp only at hp
    rcases fillOrders_mem n F F _ _ p hp with h | h
    · exact build_unique_orders_mem_perm n F g p h
    · exact h
  refine ⟨hperm, fun i hi => ?_⟩
  rw [hperm.count_eq]
  exact List.count_eq_one_of_mem (List.nodup_range n) (List.mem_range.mpr hi)

/-- C10 witness: `[1, 0]` is a member of the allocator's output for
`N = 2, F = 2` on the empty stream, and it is a permutation of
`{0, 1}`. -/
theorem allocate_mem_perm_witness :
    ([1, 0] : List Nat).Perm (List.range 2) :=
  (allocate_mem_perm 2 2 [] [1, 0] (by decide)).1

/-! ## C1: determinism of `build_layered_tiles` under a fixed seed -/

/-- A concrete 2×1 RGB source image used to exhibit the ambient-stream
dependency of `build_layered_tiles`. -/
def srcTwo : Raster :=
  ⟨2, 1, false, fun x _ => if x = 0 then ⟨10, 10, 10, 255⟩ else ⟨20, 20, 20, 255⟩⟩

/-- C1: FALSIFIED ON THE CODE.  `build_layered_tiles` draws tile positions
through `choose_random_tile_position`, which reads the module-level
`random` generator — the explicitly passed `rng` is used only for `uniform`
and the layer shuffle.  Two runs with the identical explicit generator
stream `[5, 7]` (a fresh generator from the same seed) but different
ambient module-level states (`[0]` vs `[1]`, as after the first run has
advanced the global stream) produce canvases that differ at pixel (0, 0):
the output is not a function of the seed alone, contradicting two-run
determinism. -/
theorem build_layered_tiles_depends_on_ambient_stream :
    (build_layered_tiles srcTwo 1 1 1 1 1 ⟨0, 0, 0, 255⟩ [0] [5, 7]).map
        (fun t => t.1.pix 0 0) ≠
      (build_layered_tiles srcTwo 1 1 1 1 1 ⟨0, 0, 0, 255⟩ [1] [5, 7]).map
        (fun t => t.1.pix 0 0) := by
  have hA :
      (build_layered_tiles srcTwo 1 1 1 1 1 ⟨0, 0, 0, 255⟩ [0] [5, 7]).map
        (fun t => t.1.pix 0 0) = some ⟨10, 10, 10, 255⟩ := by
    norm_num [build_layered_tiles, bltPlacements, bltPaint,
      choose_random_tile_position, pyRandintNat, pyUniform, Rng.draw, Rng.next,
      crop_and_scale_tile, pilCrop, pilResize, pilNew, pilPaste, convertRGB,
      flatten_opaque, paste_with_center, pasteClipParams, pyShuffle, shuffleGo,
      listSwap, pyRound, round_eq, srcTwo, TilePlacement.dummy, Pix.zero]
  have hB :
      (build_layered_tiles srcTwo 1 1 1 1 1 ⟨0, 0, 0, 255⟩ [1] [5, 7]).map
        (fun t => t.1.pix 0 0) = some ⟨0, 0, 0, 255⟩ := by
    norm_num [build_layered_tiles, bltPlacements, bltPaint,
      choose_random_tile_position, pyRandintNat, pyUniform, Rng.draw, Rng.next,
      crop_and_scale_tile, pilCrop, pilResize, pilNew, pilPaste, convertRGB,
      flatten_opaque, paste_with_center, pasteClipParams, pyShuffle, shuffleGo,
      listSwap, pyRound, round_eq, srcTwo, TilePlacement.dummy, Pix.zero]
  rw [hA, hB]
  simp
